import Mathlib

/-!
Verification of the model_analyzer constraint/record/search subsystem.

Shallow embedding of:
* `model_analyzer/record/types/perf_latency_avg.py` (class `PerfLatencyAvg`),
* `model_analyzer/result/constraint_manager.py` (class `ConstraintManager`),
* the value-resolution / ensemble-concurrency behaviour pinned down by
  `tests/test_quick_run_config_generator.py` (the generator itself is not part
  of the sources, so it is modelled from the specification and the test
  fixtures; see the doc comments of those definitions).

Python floats are modelled as rationals (`ℚ`).  Python exceptions
(`IndexError`, `ZeroDivisionError`) are modelled with `Except String`.
-/

/-! ## PerfLatencyAvg (model_analyzer/record/types/perf_latency_avg.py) -/

/-- A latency record: the `Record` base class stores a metric value and a
timestamp (spec, "Measurement/Record"). -/
structure PerfLatencyAvg where
  value : ℚ
  timestamp : ℚ
deriving DecidableEq

namespace PerfLatencyAvg

/-- `tag = "perf_latency_avg"`. -/
def tag : String := "perf_latency_avg"

/-- `__init__(value, timestamp=0)` with the default timestamp. -/
def make (value : ℚ) : PerfLatencyAvg := ⟨value, 0⟩

/-- `calculate_percentage_gain(self, other)`:
`((other.value() - self.value()) / self.value()) * 100`. -/
def calculate_percentage_gain (self other : PerfLatencyAvg) : ℚ :=
  ((other.value - self.value) / self.value) * 100

/-- `__eq__`: equality compares the values only. -/
def eq (self other : PerfLatencyAvg) : Bool :=
  decide (self.value = other.value)

/-- `__lt__`: reversed comparison (lower latency is better). -/
def lt (self other : PerfLatencyAvg) : Bool :=
  decide (self.value > other.value)

/-- `__add__`: a fresh record holding the sum of the values. -/
def add (self other : PerfLatencyAvg) : PerfLatencyAvg :=
  make (self.value + other.value)

/-- `__sub__`: reverse subtraction, `other.value() - self.value()`. -/
def sub (self other : PerfLatencyAvg) : PerfLatencyAvg :=
  make (other.value - self.value)

end PerfLatencyAvg

/-! ## ConstraintManager (model_analyzer/result/constraint_manager.py) -/

/-- One declared constraint for a metric tag: optional `'min'` and `'max'`
entries of the Python dict. -/
structure MetricConstraint where
  min? : Option ℚ
  max? : Option ℚ
deriving DecidableEq

/-- A per-model constraints dict: metric tag to constraint. -/
abbrev ConstraintDict := List (String × MetricConstraint)

/-- `constraints` argument: one (possibly `None`) dict per model. -/
abbrev Constraints := List (Option ConstraintDict)

/-- `run_config_measurement.data()`: per model, the list of its metrics,
each with its `tag` and `value()`. -/
abbrev MeasurementData := List (List (String × ℚ))

/-- Python dict lookup (first binding wins). -/
def lookupTag : ConstraintDict → String → Option MetricConstraint
  | [], _ => none
  | (k, c) :: rest, t => if k = t then some c else lookupTag rest t

/-- `constraints[i]` followed by the tag lookup: the constraint that applies
to metric `tag` of model `i`, if any (`None` entries declare nothing). -/
def lookupC (cs : Constraints) (i : ℕ) (tag : String) : Option MetricConstraint :=
  match cs.get? i with
  | some (some d) => lookupTag d tag
  | _ => none

/-- `'min' in constraint and metric.value() < constraint['min']`. -/
def failsMin (c : MetricConstraint) (v : ℚ) : Bool :=
  match c.min? with
  | some m => decide (v < m)
  | none => false

/-- `'max' in constraint and metric.value() > constraint['max']`. -/
def failsMax (c : MetricConstraint) (v : ℚ) : Bool :=
  match c.max? with
  | some m => decide (v > m)
  | none => false

/-- The inner `for metric in model_metrics` loop of `satisfies_constraints`:
`.ok false` models the early `return False`, `.error` the `IndexError`
raised by `constraints[i]` when `i` is out of range. -/
def checkModelMetrics (cs : Constraints) (i : ℕ) :
    List (String × ℚ) → Except String Bool
  | [] => .ok true
  | (tag, v) :: rest =>
    match cs.get? i with
    | none => .error "IndexError"
    | some none => checkModelMetrics cs i rest
    | some (some d) =>
      match lookupTag d tag with
      | none => checkModelMetrics cs i rest
      | some c =>
        if failsMin c v then .ok false
        else if failsMax c v then .ok false
        else checkModelMetrics cs i rest

/-- The outer `for (i, model_metrics) in enumerate(...)` loop of
`satisfies_constraints`. -/
def checkAllModels (cs : Constraints) : ℕ → MeasurementData → Except String Bool
  | _, [] => .ok true
  | i, metrics :: rest =>
    match checkModelMetrics cs i metrics with
    | .error e => .error e
    | .ok false => .ok false
    | .ok true => checkAllModels cs (i + 1) rest

/-- `ConstraintManager.satisfies_constraints(constraints, run_config_measurement)`. -/
def satisfies_constraints (cs : Constraints) (data : MeasurementData) :
    Except String Bool :=
  if cs.isEmpty then .ok true
  else checkAllModels cs 0 data

/-- The `'min'` block of `constraint_failure_percentage`:
adds `(min - value) / min` on violation (`ZeroDivisionError` if `min` is 0). -/
def minOverage (c : MetricConstraint) (v : ℚ) : Except String ℚ :=
  match c.min? with
  | none => .ok 0
  | some m =>
    if v < m then
      if m = 0 then .error "ZeroDivisionError" else .ok ((m - v) / m)
    else .ok 0

/-- The `'max'` block of `constraint_failure_percentage`:
adds `(value - max) / max` on violation (`ZeroDivisionError` if `max` is 0). -/
def maxOverage (c : MetricConstraint) (v : ℚ) : Except String ℚ :=
  match c.max? with
  | none => .ok 0
  | some m =>
    if v > m then
      if m = 0 then .error "ZeroDivisionError" else .ok ((v - m) / m)
    else .ok 0

/-- The inner metric loop of `constraint_failure_percentage`, returning the
sum of the overages contributed by the given metrics of model `i`. -/
def failureModelMetrics (cs : Constraints) (i : ℕ) :
    List (String × ℚ) → Except String ℚ
  | [] => .ok 0
  | (tag, v) :: rest =>
    match cs.get? i with
    | none => .error "IndexError"
    | some none => failureModelMetrics cs i rest
    | some (some d) =>
      match lookupTag d tag with
      | none => failureModelMetrics cs i rest
      | some c =>
        match minOverage c v with
        | .error e => .error e
        | .ok p =>
          match maxOverage c v with
          | .error e => .error e
          | .ok q =>
            match failureModelMetrics cs i rest with
            | .error e => .error e
            | .ok r => .ok (p + q + r)

/-- The outer model loop of `constraint_failure_percentage`. -/
def failureAllModels (cs : Constraints) : ℕ → MeasurementData → Except String ℚ
  | _, [] => .ok 0
  | i, metrics :: rest =>
    match failureModelMetrics cs i metrics with
    | .error e => .error e
    | .ok p =>
      match failureAllModels cs (i + 1) rest with
      | .error e => .error e
      | .ok q => .ok (p + q)

/-- `ConstraintManager.constraint_failure_percentage(constraints, rcm)`:
the accumulated overage times 100. -/
def constraint_failure_percentage (cs : Constraints) (data : MeasurementData) :
    Except String ℚ :=
  if cs.isEmpty then .ok 0
  else
    match failureAllModels cs 0 data with
    | .error e => .error e
    | .ok t => .ok (t * 100)

/-! ## Specification-side definitions for the constraint evaluator

These follow the wording of the spec ("for every entity position, for every
metric in that entity's measurement that has a declared constraint, value
must lie within `[min, max]`"), to be compared with the embedded code. -/

/-- Spec: the metric value lies within `[min, max]`, either bound optional. -/
def specMetricOk (c : MetricConstraint) (v : ℚ) : Prop :=
  (∀ m, c.min? = some m → m ≤ v) ∧ (∀ m, c.max? = some m → v ≤ m)

instance (c : MetricConstraint) (v : ℚ) : Decidable (specMetricOk c v) := by
  unfold specMetricOk
  exact inferInstance

/-- Spec: every constrained metric of every entity position is in bounds. -/
def specSatisfies (cs : Constraints) (data : MeasurementData) : Prop :=
  ∀ i tag v c, (tag, v) ∈ data.getD i [] → lookupC cs i tag = some c →
    specMetricOk c v

/-- Spec: the relative overage `(min - value)/min` of a violated min bound. -/
def specMinOverage (c : MetricConstraint) (v : ℚ) : ℚ :=
  match c.min? with
  | some m => if v < m then (m - v) / m else 0
  | none => 0

/-- Spec: the relative overage `(value - max)/max` of a violated max bound. -/
def specMaxOverage (c : MetricConstraint) (v : ℚ) : ℚ :=
  match c.max? with
  | some m => if v > m then (v - m) / m else 0
  | none => 0

/-- Spec: the relative overage of one metric against one constraint, summed
over its violated bounds. -/
def specOverage (c : MetricConstraint) (v : ℚ) : ℚ :=
  specMinOverage c v + specMaxOverage c v

/-- Spec: the total overage contributed by one entity's metrics. -/
def modelOverageSum (cs : Constraints) (i : ℕ) (ms : List (String × ℚ)) : ℚ :=
  (ms.map fun tv =>
    match lookupC cs i tv.1 with
    | some c => specOverage c tv.2
    | none => 0).sum

/-- Spec: the infeasibility score, 100 times the sum of all relative
overages over every constrained metric of every entity position. -/
def specScore (cs : Constraints) (data : MeasurementData) : ℚ :=
  100 * ((data.enum.map fun p => modelOverageSum cs p.1 p.2).sum)

/-! ## Helper lemmas relating the code to the spec predicates -/

theorem failsMin_eq_false_iff (c : MetricConstraint) (v : ℚ) :
    failsMin c v = false ↔ ∀ m, c.min? = some m → m ≤ v := by
  cases h : c.min? with
  | none => simp [failsMin, h]
  | some m => simp [failsMin, h, not_lt]

theorem failsMax_eq_false_iff (c : MetricConstraint) (v : ℚ) :
    failsMax c v = false ↔ ∀ m, c.max? = some m → v ≤ m := by
  cases h : c.max? with
  | none => simp [failsMax, h]
  | some m => simp [failsMax, h, not_lt]

theorem not_fails_iff_specMetricOk (c : MetricConstraint) (v : ℚ) :
    (failsMin c v = false ∧ failsMax c v = false) ↔ specMetricOk c v := by
  rw [failsMin_eq_false_iff, failsMax_eq_false_iff]
  exact Iff.rfl

theorem checkModelMetrics_no_error (cs : Constraints) (i : ℕ)
    (h : i < cs.length) (ms : List (String × ℚ)) :
    ∃ b, checkModelMetrics cs i ms = .ok b := by
  induction ms with
  | nil => exact ⟨true, rfl⟩
  | cons p rest ih =>
    obtain ⟨tag, v⟩ := p
    have hx : cs.get? i = some (cs.get ⟨i, h⟩) := List.get?_eq_get h
    obtain ⟨b, hb⟩ := ih
    cases hd : cs.get ⟨i, h⟩ with
    | none =>
      refine ⟨b, ?_⟩
      rw [checkModelMetrics, hx, hd]
      exact hb
    | some d =>
      cases hl : lookupTag d tag with
      | none =>
        refine ⟨b, ?_⟩
        rw [checkModelMetrics, hx, hd]
        simpa [hl] using hb
      | some c =>
        by_cases h1 : failsMin c v
        · exact ⟨false, by rw [checkModelMetrics, hx, hd]; simp [hl, h1]⟩
        · by_cases h2 : failsMax c v
          · exact ⟨false, by rw [checkModelMetrics, hx, hd]; simp [hl, h1, h2]⟩
          · exact ⟨b, by rw [checkModelMetrics, hx, hd]; simpa [hl, h1, h2] using hb⟩


theorem checkModelMetrics_cons (cs : Constraints) (i : ℕ) (h : i < cs.length)
    (tag : String) (v : ℚ) (rest : List (String × ℚ)) :
    checkModelMetrics cs i ((tag, v) :: rest) =
      match lookupC cs i tag with
      | none => checkModelMetrics cs i rest
      | some c =>
        if failsMin c v then .ok false
        else if failsMax c v then .ok false
        else checkModelMetrics cs i rest := by
  have hx : cs.get? i = some (cs.get ⟨i, h⟩) := List.get?_eq_get h
  rw [checkModelMetrics, lookupC, hx]
  cases cs.get ⟨i, h⟩ with
  | none => rfl
  | some d => cases lookupTag d tag <;> rfl

theorem checkModelMetrics_ok_true_iff (cs : Constraints) (i : ℕ)
    (h : i < cs.length) (ms : List (String × ℚ)) :
    checkModelMetrics cs i ms = .ok true ↔
      ∀ tag v c, (tag, v) ∈ ms → lookupC cs i tag = some c → specMetricOk c v := by
  induction ms with
  | nil => simp [checkModelMetrics]
  | cons p rest ih =>
    obtain ⟨tag, v⟩ := p
    rw [checkModelMetrics_cons cs i h]
    constructor
    · intro hok t v' c' hmem hc
      rcases List.mem_cons.mp hmem with heq | hmem'
      · have ht : t = tag := congrArg Prod.fst heq
        have hv : v' = v := congrArg Prod.snd heq
        subst ht hv
        rw [hc] at hok
        by_cases h1 : failsMin c' v'
        · simp [h1] at hok
        · by_cases h2 : failsMax c' v'
          · simp [h1, h2] at hok
          · exact (not_fails_iff_specMetricOk c' v').mp
              ⟨Bool.eq_false_iff.mpr h1, Bool.eq_false_iff.mpr h2⟩
      · cases hl : lookupC cs i tag with
        | none =>
          rw [hl] at hok
          exact (ih.mp hok) t v' c' hmem' hc
        | some c =>
          rw [hl] at hok
          by_cases h1 : failsMin c v
          · simp [h1] at hok
          · by_cases h2 : failsMax c v
            · simp [h1, h2] at hok
            · simp only [h1, h2, if_false] at hok
              exact (ih.mp hok) t v' c' hmem' hc
    · intro hall
      cases hl : lookupC cs i tag with
      | none =>
        exact ih.mpr fun t v' c' hmem hc =>
          hall t v' c' (List.mem_cons_of_mem _ hmem) hc
      | some c =>
        have hok := hall tag v c (List.mem_cons_self _ _) hl
        obtain ⟨hf1, hf2⟩ := (not_fails_iff_specMetricOk c v).mpr hok
        simp only [hf1, hf2, Bool.false_eq_true, if_false]
        exact ih.mpr fun t v' c' hmem hc =>
          hall t v' c' (List.mem_cons_of_mem _ hmem) hc

theorem checkAllModels_ok_true_iff (cs : Constraints) :
    ∀ (data : MeasurementData) (k : ℕ), k + data.length ≤ cs.length →
    (checkAllModels cs k data = .ok true ↔
      ∀ i tag v c, (tag, v) ∈ data.getD i [] → lookupC cs (k + i) tag = some c →
        specMetricOk c v) := by
  intro data
  induction data with
  | nil =>
    intro k _
    simp [checkAllModels, List.getD]
  | cons m rest ih =>
    intro k hk
    have hklt : k < cs.length := by
      simp only [List.length_cons] at hk
      omega
    obtain ⟨b, hb⟩ := checkModelMetrics_no_error cs k hklt m
    rw [checkAllModels, hb]
    cases b with
    | false =>
      simp only [Bool.false_eq_true]
      constructor
      · intro hcon
        exact absurd hcon (by simp)
      · intro hall
        have hm : checkModelMetrics cs k m = .ok true := by
          refine (checkModelMetrics_ok_true_iff cs k hklt m).mpr ?_
          intro t v c hmem hc
          have h0 : (t, v) ∈ (m :: rest).getD 0 [] := by
            simpa [List.getD_cons_zero] using hmem
          have hc0 : lookupC cs (k + 0) t = some c := by
            simpa [Nat.add_zero] using hc
          exact hall 0 t v c h0 hc0
        rw [hb] at hm
        exact absurd hm (by simp)
    | true =>
      rw [ih (k + 1) (by simp only [List.length_cons] at hk; omega)]
      constructor
      · intro htail i t v c hmem hc
        cases i with
        | zero =>
          have hmem0 : (t, v) ∈ m := by simpa [List.getD_cons_zero] using hmem
          have hc0 : lookupC cs k t = some c := by simpa [Nat.add_zero] using hc
          exact (checkModelMetrics_ok_true_iff cs k hklt m).mp hb t v c hmem0 hc0
        | succ j =>
          have hmemj : (t, v) ∈ rest.getD j [] := by
            simpa [List.getD_cons_succ] using hmem
          have hcj : lookupC cs (k + 1 + j) t = some c := by
            have harith : k + (j + 1) = k + 1 + j := by omega
            rw [harith] at hc
            exact hc
          exact htail j t v c hmemj hcj
      · intro hall i t v c hmem hc
        have hmem' : (t, v) ∈ (m :: rest).getD (i + 1) [] := by
          simpa [List.getD_cons_succ] using hmem
        have hc' : lookupC cs (k + (i + 1)) t = some c := by
          have harith : k + (i + 1) = k + 1 + i := by omega
          rw [harith]
          exact hc
        exact hall (i + 1) t v c hmem' hc'

theorem satisfies_ok_true_iff (cs : Constraints) (data : MeasurementData)
    (hlen : data.length ≤ cs.length) :
    satisfies_constraints cs data = .ok true ↔ specSatisfies cs data := by
  rw [satisfies_constraints]
  by_cases hemp : cs.isEmpty
  · have hcs : cs = [] := List.isEmpty_iff.mp hemp
    subst hcs
    have hdata : data = [] := by
      simpa using List.length_eq_zero.mp (Nat.le_zero.mp hlen)
    subst hdata
    simp [specSatisfies, List.getD]
  · rw [if_neg hemp]
    have h := checkAllModels_ok_true_iff cs data 0 (by simpa using hlen)
    simpa [specSatisfies, Nat.zero_add] using h

/-! ## Nonzero / positive bound side conditions -/

/-- Neither declared bound of the constraint is the literal 0 (a zero bound
would make the overage division raise `ZeroDivisionError`). -/
def MetricConstraint.boundsNonzero (c : MetricConstraint) : Bool :=
  !(decide (c.min? = some 0)) && !(decide (c.max? = some 0))

/-- Every declared bound in every constraint dict is nonzero. -/
def constraintsNonzero (cs : Constraints) : Bool :=
  cs.all fun d =>
    match d with
    | none => true
    | some x => x.all fun kv => kv.2.boundsNonzero

/-- Every declared bound of the constraint is positive. -/
def MetricConstraint.boundsPositive (c : MetricConstraint) : Bool :=
  (match c.min? with | some m => decide (0 < m) | none => true) &&
  (match c.max? with | some m => decide (0 < m) | none => true)

/-- Every declared bound in every constraint dict is positive. -/
def constraintsPositive (cs : Constraints) : Bool :=
  cs.all fun d =>
    match d with
    | none => true
    | some x => x.all fun kv => kv.2.boundsPositive

theorem lookupTag_mem (d : ConstraintDict) (t : String) (c : MetricConstraint)
    (h : lookupTag d t = some c) : (t, c) ∈ d := by
  induction d with
  | nil => exact absurd h (by simp [lookupTag])
  | cons kv rest ih =>
    obtain ⟨k, c'⟩ := kv
    rw [lookupTag] at h
    by_cases hk : k = t
    · rw [if_pos hk] at h
      obtain rfl : c' = c := by injection h
      subst hk
      exact List.mem_cons_self _ _
    · rw [if_neg hk] at h
      exact List.mem_cons_of_mem _ (ih h)

theorem lookupC_nonzero (cs : Constraints) (hnz : constraintsNonzero cs = true)
    (i : ℕ) (t : String) (c : MetricConstraint) (h : lookupC cs i t = some c) :
    c.min? ≠ some 0 ∧ c.max? ≠ some 0 := by
  rw [lookupC] at h
  cases hx : cs.get? i with
  | none => rw [hx] at h; exact absurd h (by simp)
  | some d =>
    rw [hx] at h
    cases d with
    | none => exact absurd h (by simp)
    | some x =>
      have hxmem : some x ∈ cs := List.get?_mem hx
      have hxall := (List.all_eq_true.mp ((List.all_eq_true.mp hnz) _ hxmem))
      have hmem := lookupTag_mem x t c h
      have := hxall _ hmem
      simp only [MetricConstraint.boundsNonzero, Bool.and_eq_true,
        Bool.not_eq_true', decide_eq_false_iff_not] at this
      exact this

theorem lookupC_positive (cs : Constraints) (hp : constraintsPositive cs = true)
    (i : ℕ) (t : String) (c : MetricConstraint) (h : lookupC cs i t = some c) :
    (∀ m, c.min? = some m → 0 < m) ∧ (∀ m, c.max? = some m → 0 < m) := by
  rw [lookupC] at h
  cases hx : cs.get? i with
  | none => rw [hx] at h; exact absurd h (by simp)
  | some d =>
    rw [hx] at h
    cases d with
    | none => exact absurd h (by simp)
    | some x =>
      have hxmem : some x ∈ cs := List.get?_mem hx
      have hxall := (List.all_eq_true.mp ((List.all_eq_true.mp hp) _ hxmem))
      have hmem := lookupTag_mem x t c h
      have hb := hxall _ hmem
      simp only [MetricConstraint.boundsPositive, Bool.and_eq_true] at hb
      constructor
      · intro m hm
        have := hb.1
        rw [hm] at this
        simpa using this
      · intro m hm
        have := hb.2
        rw [hm] at this
        simpa using this

theorem positive_imp_nonzero (cs : Constraints)
    (hp : constraintsPositive cs = true) : constraintsNonzero cs = true := by
  rw [constraintsNonzero, List.all_eq_true]
  intro d hd
  rw [constraintsPositive, List.all_eq_true] at hp
  have := hp d hd
  cases d with
  | none => rfl
  | some x =>
    simp only [List.all_eq_true] at this ⊢
    intro kv hkv
    have hb := this kv hkv
    simp only [MetricConstraint.boundsPositive, Bool.and_eq_true] at hb
    simp only [MetricConstraint.boundsNonzero, Bool.and_eq_true,
      Bool.not_eq_true', decide_eq_false_iff_not]
    constructor
    · intro hz
      have := hb.1
      rw [hz] at this
      simp at this
    · intro hz
      have := hb.2
      rw [hz] at this
      simp at this

/-! ## The failure percentage computes the spec's infeasibility score -/

theorem minOverage_ok (c : MetricConstraint) (v : ℚ) (h : c.min? ≠ some 0) :
    minOverage c v = .ok (specMinOverage c v) := by
  rw [minOverage, specMinOverage]
  cases hm : c.min? with
  | none => rfl
  | some m =>
    have hmz : ¬(m = 0) := fun hz => h (hz ▸ hm)
    by_cases hv : v < m
    · simp [hv, hmz]
    · simp [hv]

theorem maxOverage_ok (c : MetricConstraint) (v : ℚ) (h : c.max? ≠ some 0) :
    maxOverage c v = .ok (specMaxOverage c v) := by
  rw [maxOverage, specMaxOverage]
  cases hm : c.max? with
  | none => rfl
  | some m =>
    have hmz : ¬(m = 0) := fun hz => h (hz ▸ hm)
    by_cases hv : v > m
    · simp [hv, hmz]
    · simp [hv]

theorem failureModelMetrics_cons (cs : Constraints) (i : ℕ) (h : i < cs.length)
    (tag : String) (v : ℚ) (rest : List (String × ℚ)) :
    failureModelMetrics cs i ((tag, v) :: rest) =
      match lookupC cs i tag with
      | none => failureModelMetrics cs i rest
      | some c =>
        match minOverage c v with
        | .error e => .error e
        | .ok p =>
          match maxOverage c v with
          | .error e => .error e
          | .ok q =>
            match failureModelMetrics cs i rest with
            | .error e => .error e
            | .ok r => .ok (p + q + r) := by
  have hx : cs.get? i = some (cs.get ⟨i, h⟩) := List.get?_eq_get h
  rw [failureModelMetrics, lookupC, hx]
  cases cs.get ⟨i, h⟩ with
  | none => rfl
  | some d => cases lookupTag d tag <;> rfl

theorem failureModelMetrics_eq (cs : Constraints) (i : ℕ) (h : i < cs.length)
    (hnz : constraintsNonzero cs = true) (ms : List (String × ℚ)) :
    failureModelMetrics cs i ms = .ok (modelOverageSum cs i ms) := by
  induction ms with
  | nil => simp [failureModelMetrics, modelOverageSum]
  | cons tv rest ih =>
    obtain ⟨tag, v⟩ := tv
    rw [failureModelMetrics_cons cs i h]
    cases hl : lookupC cs i tag with
    | none =>
      rw [ih]
      simp only [modelOverageSum, List.map_cons, List.sum_cons, hl, zero_add]
    | some c =>
      obtain ⟨h1, h2⟩ := lookupC_nonzero cs hnz i tag c hl
      simp only [minOverage_ok c v h1, maxOverage_ok c v h2, ih]
      simp only [modelOverageSum, List.map_cons, List.sum_cons, hl, specOverage]

/-- Index-carrying recursion computing the spec's total overage; a stepping
stone between the code's loop and the spec's indexed sum. -/
def scoreAux (cs : Constraints) (k : ℕ) : MeasurementData → ℚ
  | [] => 0
  | m :: rest => modelOverageSum cs k m + scoreAux cs (k + 1) rest

theorem failureAllModels_eq_scoreAux (cs : Constraints)
    (hnz : constraintsNonzero cs = true) :
    ∀ (data : MeasurementData) (k : ℕ), k + data.length ≤ cs.length →
    failureAllModels cs k data = .ok (scoreAux cs k data) := by
  intro data
  induction data with
  | nil =>
    intro k _
    simp [failureAllModels, scoreAux]
  | cons m rest ih =>
    intro k hk
    have hklt : k < cs.length := by
      simp only [List.length_cons] at hk
      omega
    have h1 := failureModelMetrics_eq cs k hklt hnz m
    have h2 := ih (k + 1) (by simp only [List.length_cons] at hk; omega)
    rw [failureAllModels, h1, h2, scoreAux]

theorem scoreAux_eq_enumFrom_sum (cs : Constraints) :
    ∀ (data : MeasurementData) (k : ℕ),
    scoreAux cs k data =
      ((data.enumFrom k).map fun p => modelOverageSum cs p.1 p.2).sum := by
  intro data
  induction data with
  | nil =>
    intro k
    simp [scoreAux]
  | cons m rest ih =>
    intro k
    rw [scoreAux, ih (k + 1), List.enumFrom_cons, List.map_cons, List.sum_cons]

theorem cfp_eq_specScore (cs : Constraints) (data : MeasurementData)
    (hlen : data.length ≤ cs.length) (hnz : constraintsNonzero cs = true) :
    constraint_failure_percentage cs data = .ok (specScore cs data) := by
  have hspec : specScore cs data = scoreAux cs 0 data * 100 := by
    rw [specScore, List.enum, scoreAux_eq_enumFrom_sum cs data 0, mul_comm]
  rw [constraint_failure_percentage, hspec]
  by_cases hemp : cs.isEmpty
  · have hcs : cs = [] := List.isEmpty_iff.mp hemp
    subst hcs
    have hdata : data = [] := by
      simpa using List.length_eq_zero.mp (Nat.le_zero.mp hlen)
    subst hdata
    simp [scoreAux]
  · rw [if_neg hemp, failureAllModels_eq_scoreAux cs hnz data 0 (by simpa using hlen)]

theorem checkAllModels_no_error (cs : Constraints) :
    ∀ (data : MeasurementData) (k : ℕ), k + data.length ≤ cs.length →
    ∃ b, checkAllModels cs k data = .ok b := by
  intro data
  induction data with
  | nil =>
    intro k _
    exact ⟨true, rfl⟩
  | cons m rest ih =>
    intro k hk
    have hklt : k < cs.length := by
      simp only [List.length_cons] at hk
      omega
    obtain ⟨b, hb⟩ := checkModelMetrics_no_error cs k hklt m
    rw [checkAllModels, hb]
    cases b with
    | false => exact ⟨false, rfl⟩
    | true => exact ih (k + 1) (by simp only [List.length_cons] at hk; omega)

/-! ## Sign analysis of the infeasibility score under positive bounds -/

theorem sum_eq_zero_iff_of_nonneg (l : List ℚ) (h : ∀ x ∈ l, 0 ≤ x) :
    l.sum = 0 ↔ ∀ x ∈ l, x = 0 := by
  induction l with
  | nil => simp
  | cons x rest ih =>
    rw [List.sum_cons]
    have hx : 0 ≤ x := h x (List.mem_cons_self _ _)
    have hrest : ∀ y ∈ rest, 0 ≤ y := fun y hy => h y (List.mem_cons_of_mem _ hy)
    have hsum : 0 ≤ rest.sum := List.sum_nonneg hrest
    rw [add_eq_zero_iff_of_nonneg hx hsum, ih hrest]
    constructor
    · rintro ⟨h1, h2⟩ y hy
      rcases List.mem_cons.mp hy with rfl | hy'
      · exact h1
      · exact h2 y hy'
    · intro hall
      exact ⟨hall x (List.mem_cons_self _ _),
        fun y hy => hall y (List.mem_cons_of_mem _ hy)⟩

theorem specMinOverage_nonneg (c : MetricConstraint) (v : ℚ)
    (hpos : ∀ m, c.min? = some m → 0 < m) : 0 ≤ specMinOverage c v := by
  rw [specMinOverage]
  cases hm : c.min? with
  | none => exact le_refl 0
  | some m =>
    by_cases hv : v < m
    · have h0 := hpos m hm
      have hq : (0 : ℚ) ≤ (m - v) / m := le_of_lt (div_pos (by linarith) h0)
      simpa [hv] using hq
    · simp [hv]

theorem specMaxOverage_nonneg (c : MetricConstraint) (v : ℚ)
    (hpos : ∀ m, c.max? = some m → 0 < m) : 0 ≤ specMaxOverage c v := by
  rw [specMaxOverage]
  cases hm : c.max? with
  | none => exact le_refl 0
  | some m =>
    by_cases hv : v > m
    · have h0 := hpos m hm
      have hq : (0 : ℚ) ≤ (v - m) / m := le_of_lt (div_pos (by linarith) h0)
      simpa [hv] using hq
    · simp [hv]

theorem specOverage_nonneg (c : MetricConstraint) (v : ℚ)
    (hmin : ∀ m, c.min? = some m → 0 < m) (hmax : ∀ m, c.max? = some m → 0 < m) :
    0 ≤ specOverage c v :=
  add_nonneg (specMinOverage_nonneg c v hmin) (specMaxOverage_nonneg c v hmax)

theorem specOverage_eq_zero_iff (c : MetricConstraint) (v : ℚ)
    (hmin : ∀ m, c.min? = some m → 0 < m) (hmax : ∀ m, c.max? = some m → 0 < m) :
    specOverage c v = 0 ↔ specMetricOk c v := by
  constructor
  · intro hz
    by_contra hok
    rw [specMetricOk] at hok
    push_neg at hok
    have hcontra : 0 < specOverage c v := by
      rcases Classical.em (∀ m, c.min? = some m → m ≤ v) with hA | hA
      · obtain ⟨m, hm, hv⟩ := hok hA
        have h1 : 0 < specMaxOverage c v := by
          have hq : (0 : ℚ) < (v - m) / m := div_pos (by linarith) (hmax m hm)
          simpa [specMaxOverage, hm, hv] using hq
        have h2 := specMinOverage_nonneg c v hmin
        rw [specOverage]
        linarith
      · push_neg at hA
        obtain ⟨m, hm, hv⟩ := hA
        have h1 : 0 < specMinOverage c v := by
          have hq : (0 : ℚ) < (m - v) / m := div_pos (by linarith) (hmin m hm)
          simpa [specMinOverage, hm, hv] using hq
        have h2 := specMaxOverage_nonneg c v hmax
        rw [specOverage]
        linarith
    rw [hz] at hcontra
    exact absurd hcontra (lt_irrefl 0)
  · rintro ⟨hokmin, hokmax⟩
    have h1 : specMinOverage c v = 0 := by
      cases hm : c.min? with
      | none => simp [specMinOverage, hm]
      | some m => simp [specMinOverage, hm, not_lt.mpr (hokmin m hm)]
    have h2 : specMaxOverage c v = 0 := by
      cases hm : c.max? with
      | none => simp [specMaxOverage, hm]
      | some m => simp [specMaxOverage, hm, not_lt.mpr (hokmax m hm)]
    rw [specOverage, h1, h2, add_zero]

theorem modelOverageSum_term_nonneg (cs : Constraints)
    (hp : constraintsPositive cs = true) (i : ℕ) (tv : String × ℚ) :
    0 ≤ (match lookupC cs i tv.1 with
         | some c => specOverage c tv.2
         | none => 0) := by
  cases hl : lookupC cs i tv.1 with
  | none => exact le_refl 0
  | some c =>
    obtain ⟨hmin, hmax⟩ := lookupC_positive cs hp i tv.1 c hl
    exact specOverage_nonneg c tv.2 hmin hmax

theorem modelOverageSum_nonneg (cs : Constraints)
    (hp : constraintsPositive cs = true) (i : ℕ) (ms : List (String × ℚ)) :
    0 ≤ modelOverageSum cs i ms := by
  rw [modelOverageSum]
  refine List.sum_nonneg ?_
  intro x hx
  obtain ⟨tv, _, rfl⟩ := List.mem_map.mp hx
  exact modelOverageSum_term_nonneg cs hp i tv

theorem modelOverageSum_eq_zero_iff (cs : Constraints)
    (hp : constraintsPositive cs = true) (i : ℕ) (ms : List (String × ℚ)) :
    modelOverageSum cs i ms = 0 ↔
      ∀ tag v c, (tag, v) ∈ ms → lookupC cs i tag = some c → specMetricOk c v := by
  rw [modelOverageSum, sum_eq_zero_iff_of_nonneg _ (by
    intro x hx
    obtain ⟨tv, _, rfl⟩ := List.mem_map.mp hx
    exact modelOverageSum_term_nonneg cs hp i tv)]
  constructor
  · intro hall tag v c hmem hc
    have hz := hall _ (List.mem_map.mpr ⟨(tag, v), hmem, rfl⟩)
    rw [hc] at hz
    obtain ⟨hmin, hmax⟩ := lookupC_positive cs hp i tag c hc
    exact (specOverage_eq_zero_iff c v hmin hmax).mp hz
  · intro hall x hx
    obtain ⟨⟨tag, v⟩, hmem, rfl⟩ := List.mem_map.mp hx
    cases hl : lookupC cs i tag with
    | none => rfl
    | some c =>
      obtain ⟨hmin, hmax⟩ := lookupC_positive cs hp i tag c hl
      exact (specOverage_eq_zero_iff c v hmin hmax).mpr (hall tag v c hmem hl)

theorem specScore_nonneg (cs : Constraints) (data : MeasurementData)
    (hp : constraintsPositive cs = true) : 0 ≤ specScore cs data := by
  rw [specScore]
  refine mul_nonneg (by norm_num) (List.sum_nonneg ?_)
  intro x hx
  obtain ⟨p, _, rfl⟩ := List.mem_map.mp hx
  exact modelOverageSum_nonneg cs hp p.1 p.2

theorem specScore_eq_zero_iff (cs : Constraints) (data : MeasurementData)
    (hp : constraintsPositive cs = true) :
    specScore cs data = 0 ↔ specSatisfies cs data := by
  rw [specScore, mul_eq_zero]
  have h100 : (100 : ℚ) ≠ 0 := by norm_num
  rw [or_iff_right h100]
  rw [sum_eq_zero_iff_of_nonneg _ (by
    intro x hx
    obtain ⟨p, _, rfl⟩ := List.mem_map.mp hx
    exact modelOverageSum_nonneg cs hp p.1 p.2)]
  constructor
  · intro hall i tag v c hmem hc
    rw [List.getD_eq_getElem?_getD] at hmem
    cases hi : data[i]? with
    | none =>
      rw [hi] at hmem
      exact absurd hmem (by simp)
    | some m =>
      rw [hi] at hmem
      simp only [Option.getD_some] at hmem
      have hel : (i, m) ∈ data.enum := by
        rw [List.mk_mem_enum_iff_getElem?]
        exact hi
      have hz := hall _ (List.mem_map.mpr ⟨(i, m), hel, rfl⟩)
      exact (modelOverageSum_eq_zero_iff cs hp i m).mp hz tag v c hmem hc
  · intro hsat x hx
    obtain ⟨⟨i, m⟩, hel, rfl⟩ := List.mem_map.mp hx
    have hi : data[i]? = some m := List.mk_mem_enum_iff_getElem?.mp hel
    refine (modelOverageSum_eq_zero_iff cs hp i m).mpr ?_
    intro tag v c hmem hc
    refine hsat i tag v c ?_ hc
    rw [List.getD_eq_getElem?_getD, hi]
    simpa using hmem

/-! ## Monotonicity of satisfies_constraints in the bounds -/

/-- `c'` declares a wider (more permissive) interval than `c`: its min bound
is absent or smaller, its max bound is absent or larger. -/
def MetricConstraint.wider (c' c : MetricConstraint) : Prop :=
  (c'.min? = none ∨ ∃ m' m, c'.min? = some m' ∧ c.min? = some m ∧ m' ≤ m) ∧
  (c'.max? = none ∨ ∃ m' m, c'.max? = some m' ∧ c.max? = some m ∧ m ≤ m')

theorem wider_refl (c : MetricConstraint) : c.wider c := by
  constructor
  · cases hm : c.min? with
    | none => exact Or.inl rfl
    | some m => exact Or.inr ⟨m, m, rfl, hm ▸ rfl, le_refl m⟩
  · cases hm : c.max? with
    | none => exact Or.inl rfl
    | some m => exact Or.inr ⟨m, m, rfl, hm ▸ rfl, le_refl m⟩

/-- Lifting `wider` to optional lookups: a position with no constraint in the
widened list is unconstrained; a constraint may not appear out of nowhere. -/
def widerOpt : Option MetricConstraint → Option MetricConstraint → Prop
  | none, _ => True
  | some c', some c => c'.wider c
  | some _, none => False

theorem widerOpt_refl (x : Option MetricConstraint) : widerOpt x x := by
  cases x with
  | none => trivial
  | some c => exact wider_refl c

theorem failsMin_mono (c' c : MetricConstraint) (v : ℚ) (hw : c'.wider c)
    (h : failsMin c v = false) : failsMin c' v = false := by
  rw [failsMin_eq_false_iff] at h ⊢
  intro m' hm'
  rcases hw.1 with hnone | ⟨m'', m, hm'', hm, hle⟩
  · rw [hnone] at hm'
    exact absurd hm' (by simp)
  · rw [hm''] at hm'
    obtain rfl : m'' = m' := by injection hm'
    exact le_trans hle (h m hm)

theorem failsMax_mono (c' c : MetricConstraint) (v : ℚ) (hw : c'.wider c)
    (h : failsMax c v = false) : failsMax c' v = false := by
  rw [failsMax_eq_false_iff] at h ⊢
  intro m' hm'
  rcases hw.2 with hnone | ⟨m'', m, hm'', hm, hle⟩
  · rw [hnone] at hm'
    exact absurd hm' (by simp)
  · rw [hm''] at hm'
    obtain rfl : m'' = m' := by injection hm'
    exact le_trans (h m hm) hle

theorem checkModelMetrics_mono (cs cs' : Constraints)
    (hlen : cs'.length = cs.length)
    (hw : ∀ j t, widerOpt (lookupC cs' j t) (lookupC cs j t)) (i : ℕ) :
    ∀ ms, checkModelMetrics cs i ms = .ok true →
      checkModelMetrics cs' i ms = .ok true := by
  intro ms
  induction ms with
  | nil => intro _; rfl
  | cons p rest ih =>
    obtain ⟨tag, v⟩ := p
    intro hok
    have hi : i < cs.length := by
      by_contra hge
      have hnone : cs.get? i = none := List.get?_eq_none.mpr (Nat.le_of_not_lt hge)
      rw [checkModelMetrics, hnone] at hok
      exact absurd hok (by simp)
    have hi' : i < cs'.length := hlen ▸ hi
    rw [checkModelMetrics_cons cs i hi] at hok
    rw [checkModelMetrics_cons cs' i hi']
    have htail : checkModelMetrics cs i rest = .ok true := by
      cases hl : lookupC cs i tag with
      | none =>
        rw [hl] at hok
        exact hok
      | some c =>
        rw [hl] at hok
        simp only [] at hok
        by_cases h1 : failsMin c v
        · rw [if_pos h1] at hok
          exact absurd hok (by simp)
        · by_cases h2 : failsMax c v
          · rw [if_neg h1, if_pos h2] at hok
            exact absurd hok (by simp)
          · rw [if_neg h1, if_neg h2] at hok
            exact hok
    cases hl' : lookupC cs' i tag with
    | none => exact ih htail
    | some c' =>
      have hwi := hw i tag
      rw [hl'] at hwi
      cases hl : lookupC cs i tag with
      | none =>
        rw [hl] at hwi
        exact absurd hwi id
      | some c =>
        rw [hl] at hwi
        rw [hl] at hok
        simp only [] at hok
        simp only []
        have h1 : failsMin c v = false := by
          by_contra h1'
          rw [if_pos (Bool.of_not_eq_false h1')] at hok
          exact absurd hok (by simp)
        have h2 : failsMax c v = false := by
          by_contra h2'
          rw [if_neg (by rw [h1]; exact Bool.false_ne_true),
            if_pos (Bool.of_not_eq_false h2')] at hok
          exact absurd hok (by simp)
        rw [if_neg (by rw [failsMin_mono c' c v hwi h1]; exact Bool.false_ne_true),
          if_neg (by rw [failsMax_mono c' c v hwi h2]; exact Bool.false_ne_true)]
        exact ih htail

theorem checkAllModels_mono (cs cs' : Constraints)
    (hlen : cs'.length = cs.length)
    (hw : ∀ j t, widerOpt (lookupC cs' j t) (lookupC cs j t)) :
    ∀ (data : MeasurementData) (k : ℕ), checkAllModels cs k data = .ok true →
      checkAllModels cs' k data = .ok true := by
  intro data
  induction data with
  | nil => intro k _; rfl
  | cons m rest ih =>
    intro k hok
    rw [checkAllModels] at hok
    cases hm : checkModelMetrics cs k m with
    | error e =>
      rw [hm] at hok
      exact absurd hok (by simp)
    | ok b =>
      rw [hm] at hok
      cases b with
      | false => exact absurd hok (by simp)
      | true =>
        have hm' := checkModelMetrics_mono cs cs' hlen hw k m hm
        rw [checkAllModels, hm']
        exact ih (k + 1) hok

theorem satisfies_constraints_mono (cs cs' : Constraints)
    (hlen : cs'.length = cs.length)
    (hw : ∀ j t, widerOpt (lookupC cs' j t) (lookupC cs j t))
    (data : MeasurementData)
    (hok : satisfies_constraints cs data = .ok true) :
    satisfies_constraints cs' data = .ok true := by
  rw [satisfies_constraints] at hok ⊢
  by_cases hemp : cs.isEmpty
  · have : cs'.isEmpty := by
      rw [List.isEmpty_iff_length_eq_zero] at hemp ⊢
      omega
    rw [if_pos this]
  · have hemp' : ¬cs'.isEmpty := by
      rw [List.isEmpty_iff_length_eq_zero] at hemp ⊢
      omega
    rw [if_neg hemp] at hok
    rw [if_neg hemp']
    exact checkAllModels_mono cs cs' hlen hw data 0 hok

theorem getq_set_self {α : Type} :
    ∀ (l : List α) (i : ℕ) (a : α), i < l.length → (l.set i a).get? i = some a := by
  intro l
  induction l with
  | nil =>
    intro i a h
    exact absurd h (by simp)
  | cons x rest ih =>
    intro i a h
    cases i with
    | zero => rfl
    | succ j =>
      rw [List.set_cons_succ, List.get?_cons_succ]
      exact ih j a (by simpa using h)

theorem getq_set_other {α : Type} :
    ∀ (l : List α) (i j : ℕ) (a : α), i ≠ j → (l.set i a).get? j = l.get? j := by
  intro l
  induction l with
  | nil => intro i j a _; simp
  | cons x rest ih =>
    intro i j a hij
    cases i with
    | zero =>
      cases j with
      | zero => exact absurd rfl hij
      | succ j' => rfl
    | succ i' =>
      cases j with
      | zero => rfl
      | succ j' =>
        rw [List.set_cons_succ, List.get?_cons_succ, List.get?_cons_succ]
        exact ih i' j' a (fun h => hij (by rw [h]))

/-- Replace the constraint declared for `tag` in a constraint dict. -/
def replaceConstraint (d : ConstraintDict) (tag : String) (c' : MetricConstraint) :
    ConstraintDict :=
  d.map fun kv => if kv.1 = tag then (kv.1, c') else kv

theorem lookupTag_replace (d : ConstraintDict) (tag : String) (c' : MetricConstraint) :
    ∀ t, lookupTag (replaceConstraint d tag c') t =
      if t = tag then (lookupTag d tag).map (fun _ => c') else lookupTag d t := by
  induction d with
  | nil =>
    intro t
    by_cases ht : t = tag <;> simp [replaceConstraint, lookupTag, ht]
  | cons kv rest ih =>
    intro t
    obtain ⟨k, c0⟩ := kv
    have hcons : ∀ (c1 : MetricConstraint) (l : ConstraintDict) (t' : String),
        lookupTag ((k, c1) :: l) t' = if k = t' then some c1 else lookupTag l t' :=
      fun _ _ _ => rfl
    have hstep : replaceConstraint ((k, c0) :: rest) tag c' =
        (if k = tag then (k, c') else (k, c0)) :: replaceConstraint rest tag c' := rfl
    rw [hstep]
    by_cases hk : k = tag
    · rw [if_pos hk, hcons]
      by_cases hkt : k = t
      · have ht : t = tag := by rw [← hkt, hk]
        rw [if_pos hkt, if_pos ht, hcons, if_pos hk]
        rfl
      · rw [if_neg hkt, ih t]
        by_cases ht : t = tag
        · exact absurd (by rw [hk, ht] : k = t) hkt
        · rw [if_neg ht, if_neg ht, hcons, if_neg hkt]
    · rw [if_neg hk, hcons]
      by_cases hkt : k = t
      · have ht : ¬(t = tag) := fun h => hk (by rw [hkt, h])
        rw [if_pos hkt, if_neg ht, hcons, if_pos hkt]
      · rw [if_neg hkt, ih t]
        by_cases ht : t = tag
        · rw [if_pos ht, if_pos ht, hcons, if_neg hk]
        · rw [if_neg ht, if_neg ht, hcons, if_neg hkt]

/-! ## Quick-search value resolution and ensemble concurrency

`search_dimension.py` / `quick_run_config_generator.py` are not among the
sources; only `tests/test_quick_run_config_generator.py` is.  The following
definitions are therefore modelled from the spec ("Dimension", "Value
resolution", "GlobalBounds", "Composite-entity concurrency reconciliation")
with the behaviour pinned down by the test fixtures. -/

/-- Growth law of a search dimension (spec: `law: Linear|Exponential`). -/
inductive DimensionType
  | linear
  | exponential
deriving DecidableEq

/-- Modelled from the spec: `SearchDimension` — one tunable axis with a name,
a growth law and a minimum bound. -/
structure SearchDimension where
  name : String
  dimensionType : DimensionType
  minRange : ℕ
deriving DecidableEq

/-- Modelled from the spec and the test fixtures: resolving a coordinate slot
to a concrete value.  The spec leaves the linear offset convention open
("7 (or 8 depending on configured zero/one-based linear offset)"); the tests
fix it one-based: coordinate `[5,7]` must yield `maxBatchSize 32` and
`instanceGroup count 8`, and `[1,2,4,5]` counts 3 and 6.  So a linear slot
`v` resolves to `v + 1` and an exponential slot to `2 ^ v`. -/
def SearchDimension.getValueAtIdx (d : SearchDimension) (idx : ℕ) : ℕ :=
  match d.dimensionType with
  | .linear => idx + 1
  | .exponential => 2 ^ idx

/-- Modelled from the spec: the starting coordinate sets every slot to its
dimension's minimum bound (`test_get_starting_coordinate`). -/
def getStartingCoordinate (dims : List (List SearchDimension)) : List ℕ :=
  (dims.flatten).map SearchDimension.minRange

/-- Resolve one entity's dimensions against its coordinate slots. -/
def resolveEntityValues (dims : List SearchDimension) (slots : List ℕ) :
    List (String × ℕ) :=
  (dims.zip slots).map fun p => (p.1.name, p.1.getValueAtIdx p.2)

/-- Split a flat coordinate into per-entity slot lists, one per entity's
dimension group (spec: "maps a flat coordinate vector to per-entity,
per-dimension values"). -/
def splitCoordinate : List (List SearchDimension) → List ℕ → List (List ℕ)
  | [], _ => []
  | ds :: rest, coord => coord.take ds.length :: splitCoordinate rest (coord.drop ds.length)

/-- Lookup of a resolved dimension value by name. -/
def lookupVal : List (String × ℕ) → String → Option ℕ
  | [], _ => none
  | (k, v) :: rest, t => if k = t then some v else lookupVal rest t

/-- Modelled from the spec: a sub-entity's computed concurrency is
`batchSize × instanceCount × multiplier` with the fixed multiplier 2. -/
def subComputedConcurrency (vals : List (String × ℕ)) : ℕ :=
  ((lookupVal vals "max_batch_size").getD 0) *
    ((lookupVal vals "instance_count").getD 0) * 2

/-- Python's `min` over a nonempty list (0 for an empty one). -/
def minList : List ℕ → ℕ
  | [] => 0
  | x :: rest => rest.foldl min x

/-- The resolved per-sub-entity values of a composite entity. -/
def ensembleSubValues (dims : List (List SearchDimension)) (coord : List ℕ) :
    List (List (String × ℕ)) :=
  (dims.zip (splitCoordinate dims coord)).map fun p => resolveEntityValues p.1 p.2

/-- The produced multi-entity result for a composite entity: the per-stage
configurations plus the benchmarking parameters (`concurrency-range`,
fixed `batch-size` of 1). -/
structure EnsembleRunConfig where
  subConfigs : List (List (String × ℕ))
  perfConcurrencyRange : ℕ
  perfBatchSize : ℕ
deriving DecidableEq

/-- Modelled from the spec: the emitted configuration for a composite
(ensemble) entity.  The observable concurrency is the minimum of the
sub-entities' computed concurrencies, unless a GlobalBounds max/min
concurrency override is configured (0 means unset, mirroring the test's
default arguments), in which case the override is used verbatim; the
max-concurrency override is checked first, exactly as the test does. -/
def getNextRunConfigEnsemble (dims : List (List SearchDimension)) (coord : List ℕ)
    (maxConcurrency minConcurrency : ℕ) : EnsembleRunConfig :=
  let vals := ensembleSubValues dims coord
  ⟨vals,
    if maxConcurrency ≠ 0 then maxConcurrency
    else if minConcurrency ≠ 0 then minConcurrency
    else minList (vals.map subComputedConcurrency),
    1⟩

/-- The two-submodel ensemble dimension set of the ensemble tests: each
sub-entity searches `max_batch_size` (exponential) and `instance_count`
(linear). -/
def testEnsembleDims : List (List SearchDimension) :=
  [[⟨"max_batch_size", DimensionType.exponential, 0⟩,
    ⟨"instance_count", DimensionType.linear, 0⟩],
   [⟨"max_batch_size", DimensionType.exponential, 0⟩,
    ⟨"instance_count", DimensionType.linear, 0⟩]]

/-! ## Claim theorems -/

theorem lookupC_eq_of_get (cs : Constraints) (i : ℕ) (d : ConstraintDict)
    (h : cs.get? i = some (some d)) (t : String) :
    lookupC cs i t = lookupTag d t := by
  rw [lookupC, h]

theorem lookupC_set_other (cs : Constraints) (i j : ℕ) (x : Option ConstraintDict)
    (hij : i ≠ j) (t : String) :
    lookupC (cs.set i x) j t = lookupC cs j t := by
  rw [lookupC, lookupC, getq_set_other cs i j x hij]

/-- C1: for a constraints list covering every entity position of the
measurement (which the claim presupposes by indexing `constraints[i]` for
every entity position `i`), `satisfies_constraints` returns `True` iff every
metric whose tag has a declared constraint satisfies its declared `min`
(when present) and `max` (when present); any single violation makes the
result not-`True`. -/
theorem C1_satisfies_iff_within_bounds (cs : Constraints) (data : MeasurementData)
    (hlen : data.length ≤ cs.length) :
    satisfies_constraints cs data = .ok true ↔ specSatisfies cs data :=
  satisfies_ok_true_iff cs data hlen

theorem C1_witness :
    satisfies_constraints [some [("perf_latency_avg", ⟨some 10, some 100⟩)]]
        [[("perf_latency_avg", 50)]] = .ok true ↔
      specSatisfies [some [("perf_latency_avg", ⟨some 10, some 100⟩)]]
        [[("perf_latency_avg", 50)]] :=
  C1_satisfies_iff_within_bounds _ _ (by decide)

/-- C2: `constraint_failure_percentage` returns 100 times the sum of the
relative overages `(min - value)/min` and `(value - max)/max` over every
violated bound of every constrained metric of every entity (provided the
constraints list covers every entity position and no declared bound is the
literal 0, where the Python code would instead raise `ZeroDivisionError`);
in particular a constraint `{max: 100}` against a measured value of 150
scores exactly 50 and fails `satisfies_constraints`. -/
theorem C2_failure_percentage_is_overage_sum :
    (∀ (cs : Constraints) (data : MeasurementData), data.length ≤ cs.length →
      constraintsNonzero cs = true →
      constraint_failure_percentage cs data = .ok (specScore cs data)) ∧
    constraint_failure_percentage [some [("perf_latency_avg", ⟨none, some 100⟩)]]
      [[("perf_latency_avg", 150)]] = .ok 50 ∧
    satisfies_constraints [some [("perf_latency_avg", ⟨none, some 100⟩)]]
      [[("perf_latency_avg", 150)]] = .ok false := by
  refine ⟨fun cs data h1 h2 => cfp_eq_specScore cs data h1 h2, ?_, by rfl⟩
  simp [constraint_failure_percentage, failureAllModels, failureModelMetrics,
    lookupTag, minOverage, maxOverage, lookupC]
  norm_num

theorem C2_witness :
    constraint_failure_percentage [some [("perf_latency_avg", ⟨none, some 100⟩)]]
        [[("perf_latency_avg", 150)]] =
      .ok (specScore [some [("perf_latency_avg", ⟨none, some 100⟩)]]
        [[("perf_latency_avg", 150)]]) :=
  C2_failure_percentage_is_overage_sum.1 _ _ (by decide) (by decide)

/-- C3 counterexample: the claim fails as stated — with a negative declared
bound `{min: -10}` and measured value -20 the score is -100, which is
negative, so `constraint_failure_percentage` is not always `≥ 0`. -/
theorem C3_counterexample :
    constraint_failure_percentage [some [("gpu_used_memory", ⟨some (-10), none⟩)]]
        [[("gpu_used_memory", -20)]] = .ok (-100) ∧
      ¬((0 : ℚ) ≤ -100) ∧
      satisfies_constraints [some [("gpu_used_memory", ⟨some (-10), none⟩)]]
        [[("gpu_used_memory", -20)]] = .ok false := by
  refine ⟨?_, by norm_num, by rfl⟩
  simp [constraint_failure_percentage, failureAllModels, failureModelMetrics,
    lookupTag, minOverage, maxOverage, lookupC]
  norm_num

/-- C3 amended: when every declared bound is positive (the intended domain:
latency/throughput/memory bounds), the returned score is `≥ 0` and is `0`
iff `satisfies_constraints` returns `True` on the same inputs (the
constraints list covering every entity position). -/
theorem C3_score_nonneg_and_zero_iff (cs : Constraints) (data : MeasurementData)
    (hlen : data.length ≤ cs.length) (hpos : constraintsPositive cs = true) :
    ∃ q, constraint_failure_percentage cs data = .ok q ∧ 0 ≤ q ∧
      (q = 0 ↔ satisfies_constraints cs data = .ok true) := by
  refine ⟨specScore cs data,
    cfp_eq_specScore cs data hlen (positive_imp_nonzero cs hpos),
    specScore_nonneg cs data hpos, ?_⟩
  rw [specScore_eq_zero_iff cs data hpos, satisfies_ok_true_iff cs data hlen]

theorem C3_witness :
    ∃ q, constraint_failure_percentage [some [("perf_latency_avg", ⟨some 10, none⟩)]]
        [[("perf_latency_avg", 5)]] = .ok q ∧ 0 ≤ q ∧
      (q = 0 ↔ satisfies_constraints [some [("perf_latency_avg", ⟨some 10, none⟩)]]
        [[("perf_latency_avg", 5)]] = .ok true) :=
  C3_score_nonneg_and_zero_iff _ _ (by decide) (by decide)

/-- C7: widening a single declared constraint — replacing entity `i`'s
constraint for `tag` by one whose min is absent or smaller and whose max is
absent or larger — never turns a passing measurement into a failing one. -/
theorem C7_widening_preserves_pass (cs : Constraints) (data : MeasurementData)
    (i : ℕ) (d : ConstraintDict) (tag : String) (c c' : MetricConstraint)
    (hget : cs.get? i = some (some d)) (hl : lookupTag d tag = some c)
    (hw : c'.wider c)
    (hsat : satisfies_constraints cs data = .ok true) :
    satisfies_constraints (cs.set i (some (replaceConstraint d tag c'))) data =
      .ok true := by
  have hi : i < cs.length := by
    by_contra hge
    rw [List.get?_eq_none.mpr (Nat.le_of_not_lt hge)] at hget
    exact absurd hget (by simp)
  refine satisfies_constraints_mono cs _ (List.length_set cs i _) ?_ data hsat
  intro j t
  by_cases hj : i = j
  · subst hj
    have hset : (cs.set i (some (replaceConstraint d tag c'))).get? i =
        some (some (replaceConstraint d tag c')) :=
      getq_set_self cs i _ hi
    rw [lookupC_eq_of_get _ _ _ hset t, lookupC_eq_of_get _ _ _ hget t,
      lookupTag_replace]
    by_cases ht : t = tag
    · rw [if_pos ht, ht, hl]
      exact hw
    · rw [if_neg ht]
      exact widerOpt_refl _
  · rw [lookupC_set_other cs i j _ hj t]
    exact widerOpt_refl _

theorem C7_witness :
    satisfies_constraints
        ([some [("perf_latency_avg",
          MetricConstraint.mk (some 10) (some 100))]].set 0
          (some (replaceConstraint
            [("perf_latency_avg", MetricConstraint.mk (some 10) (some 100))]
            "perf_latency_avg" (MetricConstraint.mk (some 5) (some 200)))))
        [[("perf_latency_avg", 50)]] = .ok true :=
  C7_widening_preserves_pass _ _ 0 _ "perf_latency_avg"
    (MetricConstraint.mk (some 10) (some 100))
    (MetricConstraint.mk (some 5) (some 200))
    rfl rfl
    ⟨Or.inr ⟨5, 10, rfl, rfl, by decide⟩, Or.inr ⟨200, 100, rfl, rfl, by decide⟩⟩
    (by rfl)

/-- C8 counterexample: the claim fails as stated — both functions can raise.
With a one-entry constraints list and a two-entity measurement, indexing
`constraints[1]` raises `IndexError`; with a declared bound of 0 and a
violating value, the overage division raises `ZeroDivisionError`. -/
theorem C8_counterexample :
    satisfies_constraints [some []] [[], [("gpu_used_memory", 1)]] =
        .error "IndexError" ∧
      constraint_failure_percentage [some [("perf_latency_avg", ⟨some 0, none⟩)]]
        [[("perf_latency_avg", -1)]] = .error "ZeroDivisionError" :=
  ⟨rfl, rfl⟩

/-- C8 amended: when the constraints list covers every entity position of
the measurement and no declared bound is the literal 0, both functions
return an ordinary value — violations are reported as values, never as
exceptions. -/
theorem C8_no_exceptions (cs : Constraints) (data : MeasurementData)
    (hlen : data.length ≤ cs.length) (hnz : constraintsNonzero cs = true) :
    (∃ b, satisfies_constraints cs data = .ok b) ∧
    (∃ q, constraint_failure_percentage cs data = .ok q) := by
  constructor
  · rw [satisfies_constraints]
    by_cases hemp : cs.isEmpty
    · rw [if_pos hemp]
      exact ⟨true, rfl⟩
    · rw [if_neg hemp]
      exact checkAllModels_no_error cs data 0 (by simpa using hlen)
  · exact ⟨specScore cs data, cfp_eq_specScore cs data hlen hnz⟩

theorem C8_witness :
    (∃ b, satisfies_constraints [some [("perf_latency_avg", ⟨some 10, some 100⟩)]]
      [[("perf_latency_avg", 150)]] = .ok b) ∧
    (∃ q, constraint_failure_percentage
      [some [("perf_latency_avg", ⟨some 10, some 100⟩)]]
      [[("perf_latency_avg", 150)]] = .ok q) :=
  C8_no_exceptions _ _ (by decide) (by decide)

/-- C4 counterexample: the claim's formula `((b.value - c.value)/b.value)*100`
(baseline `b = 100`, candidate `c = 150`, so the claimed value is -50) does
not match the code under either argument order: the code returns 50 when the
baseline is the receiver and -100/3 when the candidate is the receiver. -/
theorem C4_counterexample :
    (PerfLatencyAvg.make 100).calculate_percentage_gain (PerfLatencyAvg.make 150) ≠
        (((PerfLatencyAvg.make 100).value - (PerfLatencyAvg.make 150).value) /
          (PerfLatencyAvg.make 100).value) * 100 ∧
      (PerfLatencyAvg.make 150).calculate_percentage_gain (PerfLatencyAvg.make 100) ≠
        (((PerfLatencyAvg.make 100).value - (PerfLatencyAvg.make 150).value) /
          (PerfLatencyAvg.make 100).value) * 100 := by
  constructor <;>
  · simp only [PerfLatencyAvg.calculate_percentage_gain, PerfLatencyAvg.make]
    norm_num

/-- C4 amended: `calculate_percentage_gain` divides by the receiver's own
value, not the baseline's — `self.calculate_percentage_gain(other)` is
`((other.value - self.value)/self.value)*100`.  With the receiver as the
candidate and the argument as the baseline, for positive latencies the
result is positive exactly when the candidate's latency is lower. -/
theorem C4_percentage_gain_form (s o : PerfLatencyAvg) (h : 0 < s.value) :
    s.calculate_percentage_gain o = ((o.value - s.value) / s.value) * 100 ∧
      (0 < s.calculate_percentage_gain o ↔ s.value < o.value) := by
  refine ⟨rfl, ?_⟩
  rw [PerfLatencyAvg.calculate_percentage_gain]
  constructor
  · intro hp
    by_contra hle
    rw [not_lt] at hle
    have hnum : o.value - s.value ≤ 0 := by linarith
    have hq : (o.value - s.value) / s.value ≤ 0 :=
      div_nonpos_iff.mpr (Or.inr ⟨hnum, le_of_lt h⟩)
    linarith
  · intro hlt
    have hq : 0 < (o.value - s.value) / s.value := div_pos (by linarith) h
    linarith

theorem C4_witness :
    (PerfLatencyAvg.make 100).calculate_percentage_gain (PerfLatencyAvg.make 50) =
        (((PerfLatencyAvg.make 50).value - (PerfLatencyAvg.make 100).value) /
          (PerfLatencyAvg.make 100).value) * 100 ∧
      (0 < (PerfLatencyAvg.make 100).calculate_percentage_gain (PerfLatencyAvg.make 50) ↔
        (PerfLatencyAvg.make 100).value < (PerfLatencyAvg.make 50).value) :=
  C4_percentage_gain_form (PerfLatencyAvg.make 100) (PerfLatencyAvg.make 50) (by decide)

/-- C9 counterexample: `(a + b) - b` is not equal to `a`: with `a, b` of
values 1 and 2, `(a + b) - b` has value `2 - 3 = -1` (subtraction is
reversed), which is not value-equal to `a`. -/
theorem C9_counterexample :
    PerfLatencyAvg.eq
        (PerfLatencyAvg.sub
          ((PerfLatencyAvg.make 1).add (PerfLatencyAvg.make 2))
          (PerfLatencyAvg.make 2))
        (PerfLatencyAvg.make 1) = false := by
  simp [PerfLatencyAvg.eq, PerfLatencyAvg.sub, PerfLatencyAvg.add,
    PerfLatencyAvg.make]
  norm_num

/-- C9 amended: `a + b` is a fresh record (of the same class, hence the same
tag) whose value is `a.value + b.value`, but `__sub__` is reversed
(`x - y` has value `y.value - x.value`), so the additive inverse identity
holds with the operands flipped: `b - (a + b)` is value-equal to `a`
(while `(a + b) - b` has value `-a.value`). -/
theorem C9_add_sub (a b : PerfLatencyAvg) :
    ((a.add b).value = a.value + b.value) ∧
      PerfLatencyAvg.eq (PerfLatencyAvg.sub b (a.add b)) a = true ∧
      (PerfLatencyAvg.sub (a.add b) b).value = -a.value := by
  refine ⟨rfl, ?_, ?_⟩
  · simp [PerfLatencyAvg.eq, PerfLatencyAvg.sub, PerfLatencyAvg.add,
      PerfLatencyAvg.make]
  · simp [PerfLatencyAvg.sub, PerfLatencyAvg.add, PerfLatencyAvg.make]

/-- C10: record equality compares only the values: two `PerfLatencyAvg`
records with the same value compare equal whatever their timestamps. -/
theorem C10_eq_ignores_timestamp (v t1 t2 : ℚ) :
    PerfLatencyAvg.eq (PerfLatencyAvg.mk v t1) (PerfLatencyAvg.mk v t2) = true := by
  simp [PerfLatencyAvg.eq]

/-- C5: the concurrency emitted for a composite (ensemble) entity is the
minimum of the sub-entities' computed concurrencies
(`batch × instances × 2`) when no concurrency override is configured, and
the override value verbatim when a max- (or min-) concurrency override is
configured; on the test's ensemble at coordinate `[1,2,4,5]` the submodel
concurrencies are 12 and 192, so the emitted concurrency is 12 without an
override, 8 with max-concurrency 8, and 16 with min-concurrency 16. -/
theorem C5_ensemble_concurrency (dims : List (List SearchDimension))
    (coord : List ℕ) (maxC minC : ℕ) :
    ((maxC = 0 → minC = 0 →
      (getNextRunConfigEnsemble dims coord maxC minC).perfConcurrencyRange =
        minList ((ensembleSubValues dims coord).map subComputedConcurrency)) ∧
     (maxC ≠ 0 →
      (getNextRunConfigEnsemble dims coord maxC minC).perfConcurrencyRange = maxC) ∧
     (maxC = 0 → minC ≠ 0 →
      (getNextRunConfigEnsemble dims coord maxC minC).perfConcurrencyRange = minC)) ∧
    (getNextRunConfigEnsemble testEnsembleDims [1, 2, 4, 5] 0 0).perfConcurrencyRange
        = 12 ∧
    (getNextRunConfigEnsemble testEnsembleDims [1, 2, 4, 5] 8 0).perfConcurrencyRange
        = 8 ∧
    (getNextRunConfigEnsemble testEnsembleDims [1, 2, 4, 5] 0 16).perfConcurrencyRange
        = 16 ∧
    (ensembleSubValues testEnsembleDims [1, 2, 4, 5]).map subComputedConcurrency
        = [12, 192] := by
  refine ⟨⟨?_, ?_, ?_⟩, by decide, by decide, by decide, by decide⟩
  · intro h1 h2
    simp [getNextRunConfigEnsemble, h1, h2]
  · intro h1
    simp [getNextRunConfigEnsemble, h1]
  · intro h1 h2
    simp [getNextRunConfigEnsemble, h1, h2]

theorem C5_witness :
    (getNextRunConfigEnsemble testEnsembleDims [1, 2, 4, 5] 0 0).perfConcurrencyRange =
      minList ((ensembleSubValues testEnsembleDims [1, 2, 4, 5]).map
        subComputedConcurrency) :=
  (C5_ensemble_concurrency testEnsembleDims [1, 2, 4, 5] 0 0).1.1 rfl rfl

/-- C6 counterexample: a Linear slot does not resolve to its own value: the
tests require coordinate slot 7 of the linear `instance_count` dimension to
resolve to an instance count of 8 (one-based), not 7. -/
theorem C6_counterexample :
    (SearchDimension.mk "instance_count" DimensionType.linear 0).getValueAtIdx 7 ≠ 7 := by
  decide

/-- C6 amended: a law-Linear slot with value `v` resolves to `v + 1`
(one-based, as the test fixtures fix it) and a law-Exponential slot to
`2 ^ v`; so coordinate `[5,7]` over
`{max_batch_size: Exponential, instance_count: Linear}` resolves to batch
size 32 and instance count 8 (not 7). -/
theorem C6_value_resolution (d : SearchDimension) (v : ℕ) :
    ((d.dimensionType = DimensionType.linear → d.getValueAtIdx v = v + 1) ∧
     (d.dimensionType = DimensionType.exponential → d.getValueAtIdx v = 2 ^ v)) ∧
    resolveEntityValues
      [⟨"max_batch_size", DimensionType.exponential, 0⟩,
       ⟨"instance_count", DimensionType.linear, 0⟩] [5, 7] =
      [("max_batch_size", 32), ("instance_count", 8)] := by
  refine ⟨⟨?_, ?_⟩, by decide⟩
  · intro h
    rw [SearchDimension.getValueAtIdx, h]
  · intro h
    rw [SearchDimension.getValueAtIdx, h]

theorem C6_witness :
    (SearchDimension.mk "instance_count" DimensionType.linear 0).getValueAtIdx 7 = 7 + 1 :=
  (C6_value_resolution (SearchDimension.mk "instance_count" DimensionType.linear 0) 7).1.1 rfl
